import Mathlib

/-!
# Verification of the drive-crawl program

A shallow embedding, in Lean 4, of the Rust program in `src/main.rs`:
a resumable paginated crawler over a cloud-drive listing API, plus two
analysis passes (an overview report and a size-aggregating tree report)
over the accumulated page list.

The embedding mirrors the source:

* `File`, `FileList` mirror the persisted record and page structures.
* `format_size` mirrors the `format_size` function (the `f64` division by a
  power of two and `{:.2}` formatting are modelled exactly as rational
  rounding to hundredths, ties to even, which agrees with Rust for all
  sizes below `2^53`).
* `multiParentCheck`, `childrenOf`, `idToFile`, `rootNodes`, `dfs` and
  `show_tree` mirror the `show_tree` function.  The recursive `dfs` takes
  an explicit fuel argument; a `none` result models non-termination /
  fuel exhaustion (the Rust recursion has no guard against malformed
  cyclic inputs).
* `crawl`, `restore_data`, `list_files` mirror the crawl loop, with the
  remote lister, interrupt channel and file system as explicit inputs.
  A `Trace` records the issued page requests, the checkpoint writes, the
  final page list and the outcome.
* `unowned_parents_report` mirrors the third report of `show_overview`.
-/

set_option maxHeartbeats 1000000

namespace DriveCrawl

/-- One drive entry, mirroring `struct File` in the source.  `quota_bytes_used`
and `size` are `u64` values in the source; sizes are modelled as `Nat`
(all arithmetic on them in the source is overflow-free for realistic inputs,
and the source performs no wrapping operations on them). -/
structure File where
  id : String
  mime_type : String
  parents : List String
  name : String
  quota_bytes_used : Option Nat
  size : Option Nat
  sha256_checksum : Option String
deriving DecidableEq, Repr

/-- One fetched page, mirroring `struct FileList` in the source. -/
structure FileList where
  files : List File
  next_page_token : Option String
deriving DecidableEq, Repr

/-! ## Size formatting (`format_size`) -/

/-- Round `num / den` to the nearest integer, ties to even: the rounding used
by Rust's fixed-precision float formatting on exactly represented values. -/
def roundHalfEven (num den : Nat) : Nat :=
  let q := num / den
  let r := num % den
  if 2 * r < den then q
  else if den < 2 * r then q + 1
  else if q % 2 = 0 then q else q + 1

/-- Render `size / base` with two decimal places (`{:.2}` in the source),
where `base` is the byte count of the chosen unit. -/
def renderFixed2 (size base : Nat) : String :=
  let h := roundHalfEven (100 * size) base
  toString (h / 100) ++ "." ++ (if h % 100 < 10 then "0" else "") ++ toString (h % 100)

/-- The unit name for exponent `i` (the source's `prefix` array `["", "Ki", "Mi", "Gi"]`). -/
def unitName : Nat → String
  | 0 => ""
  | 1 => "Ki"
  | 2 => "Mi"
  | _ => "Gi"

/-- Mirrors `format_size` in the source: walk the units from `Gi` down to `B`,
pick the first whose base is at most `size`, and render with two decimals;
if none fits (i.e. `size = 0`) produce `"0 B"`. -/
def format_size (size : Nat) : String :=
  match [3, 2, 1, 0].find? (fun i => 2 ^ (10 * i) ≤ size) with
  | some i => renderFixed2 size (2 ^ (10 * i)) ++ " " ++ unitName i ++ "B"
  | none => "0 B"

/-! ## Tree mode (`show_tree`) -/

/-- A traversal node, mirroring `enum Node` inside `show_tree`:
either an actual file record, or a synthesized root for a parent id that is
absent from the id map. -/
inductive Node where
  | file (f : File)
  | root (id : String) (name : String)
deriving DecidableEq, Repr

/-- The node's own contribution to the size sum, mirroring the first `match`
in `dfs`: a file's `quota_bytes_used` when present, otherwise `0`
(also `0` for a synthesized root). -/
def nodeOwnSize : Node → Nat
  | .file f => f.quota_bytes_used.getD 0
  | .root _ _ => 0

/-- The node's id, mirroring the second `match` in `dfs`. -/
def nodeId : Node → String
  | .file f => f.id
  | .root id _ => id

/-- The node's display name, mirroring the second `match` in `dfs`. -/
def nodeName : Node → String
  | .file f => f.name
  | .root _ n => n

/-- The name given to a synthesized root node: `format!("Root ({id})")`. -/
def mkRootName (id : String) : String := "Root (" ++ id ++ ")"

/-- One printed tree line:
`println!("{}o {}  {name}", " ".repeat(depth), format_size(size_sum))`. -/
def treeLine (depth size_sum : Nat) (name : String) : String :=
  String.mk (List.replicate depth ' ') ++ "o " ++ format_size size_sum ++ "  " ++ name

/-- The `id_to_file` map of `show_tree`, built by `collect` on a `HashMap`:
for a duplicated id the later insertion wins, so lookup returns the last
record carrying the id. -/
def idToFile (files : List File) (id : String) : Option File :=
  (files.filter (fun f => f.id == id)).getLast?

/-- The children lists of the `parent_id_to_children` map of `show_tree`:
record `f` is pushed onto its parent's list exactly when `f.parents` is the
one-element list `[p]`, in the order the records appear. -/
def childrenOf (files : List File) (p : String) : List File :=
  files.filter (fun f => f.parents == [p])

/-- The multi-parent rejection performed while `show_tree` builds
`parent_id_to_children`: the first record with two or more parents aborts the
whole run (`bail!("Multiple parents: {file:?}")`), before any traversal. -/
def multiParentCheck : List File → Except String Unit
  | [] => .ok ()
  | f :: rest =>
    match f.parents with
    | [] => multiParentCheck rest
    | [_] => multiParentCheck rest
    | _ => .error ("Multiple parents: " ++ f.id)

/-- Sequence a list of options: `some` of the list of values when every entry
is `some`, otherwise `none`. -/
def seqOpt {α : Type} : List (Option α) → Option (List α)
  | [] => some []
  | none :: _ => none
  | some a :: rest => (seqOpt rest).map (fun l => a :: l)

/-- Combine one child's traversal result with the results accumulated so far:
sizes add up, output concatenates, and a failed (out-of-fuel) child poisons
the whole loop. -/
def dfsStep (r1 r2 : Option (Nat × List String)) : Option (Nat × List String) :=
  match r1, r2 with
  | some (s, out), some (s2, out2) => some (s + s2, out ++ out2)
  | _, _ => none

/-- Mirrors the recursive `dfs` of `show_tree`.  `children` is the
`parent_id_to_children` map (as a total function, absent keys mapping to
`[]`, matching `map.get(id).iter().flat_map(..)`).  Returns the aggregate
size together with the lines printed by this subtree, in print order
(children first, then this node's line when the aggregate reaches
`50 * (1 << 20)` bytes).  `fuel` bounds the recursion depth; `none` models a
recursion that would not terminate within it (the Rust code has no such
guard and would recurse forever on a cyclic input). -/
def dfs (children : String → List File) : Nat → Node → Nat → Option (Nat × List String)
  | 0, _, _ => none
  | fuel + 1, node, depth =>
    match (children (nodeId node)).foldr
        (fun c acc => dfsStep (dfs children fuel (.file c) (depth + 1)) acc)
        (some (0, [])) with
    | none => none
    | some (csum, cout) =>
      let size_sum := nodeOwnSize node + csum
      some (size_sum,
        cout ++ if 50 * 2 ^ 20 ≤ size_sum then [treeLine depth size_sum (nodeName node)] else [])

/-- The `for child in ...` loop of `dfs` as a standalone function: traverse
each child of the list at `depth + 1`, summing sizes and concatenating
output. -/
def dfsChildren (children : String → List File) (fuel : Nat) (cs : List File) (depth : Nat) :
    Option (Nat × List String) :=
  cs.foldr (fun c acc => dfsStep (dfs children fuel (.file c) (depth + 1)) acc) (some (0, []))

/-- The root selection of `show_tree`: iterate over every occurrence of a
parent id in `files.iter().flat_map(|f| &f.parents)`; an id absent from
`id_to_file` yields a synthesized `Root` node, an id whose record has an
empty `parents` list yields that record, any other id yields nothing. -/
def rootNodes (files : List File) : List Node :=
  (files.flatMap (fun f => f.parents)).filterMap (fun id =>
    match idToFile files id with
    | none => some (.root id (mkRootName id))
    | some f => if f.parents.isEmpty then some (.file f) else none)

/-- Stated from the spec's words, for comparison with `rootNodes` (the
selection the source actually performs): the claimed roots are every record
whose `parents` sequence is empty, plus one synthesized Root node for every
distinct parent id referenced by some record but absent from the id map,
each traversed once. -/
def claimedRoots (files : List File) : List Node :=
  (files.filter (fun f => f.parents.isEmpty)).map .file ++
    (((files.flatMap (fun f => f.parents)).filter
      (fun id => (idToFile files id).isNone)).dedup).map
      (fun id => .root id (mkRootName id))

/-- Mirrors `show_tree` after the pages have been restored and flattened:
reject multi-parent records while building the children map, then run `dfs`
from every root, concatenating the printed lines.  `.ok none` models a run
whose recursion exceeds `fuel` (possible only on malformed cyclic input). -/
def show_tree (fuel : Nat) (files : List File) : Except String (Option (List String)) :=
  match multiParentCheck files with
  | .error e => .error e
  | .ok _ =>
    match seqOpt ((rootNodes files).map (fun n => dfs (childrenOf files) fuel n 0)) with
    | none => .ok none
    | some rs => .ok (some ((rs.map Prod.snd).flatten))

/-! ## Crawl mode (`list_files`, `restore_data`, `save_data`) -/

/-- How one crawl run ends, mirroring the ways the `loop` in `list_files` is
left: normal completion, an API / conversion error, a Ctrl-C interrupt; or
the model-only `fuelOut` when the iteration bound is exhausted. -/
inductive Outcome where
  | complete
  | apiError
  | interrupted
  | fuelOut
deriving DecidableEq, Repr

/-- The observable behaviour of one crawl run: the continuation tokens of the
page requests issued (in order), the page lists written to the checkpoint
store by `save_data` (in order), the final in-memory page list, and the
outcome. -/
structure Trace where
  requests : List String
  saves : List (List FileList)
  pages : List FileList
  outcome : Outcome
deriving DecidableEq, Repr

/-- What the top of the `loop` in `list_files` decides from the current page
list: an empty list fetches with the empty token; a last page with a token
fetches with it; a last page without a token completes the crawl. -/
inductive Action where
  | complete
  | fetch (token : String)
deriving DecidableEq, Repr

/-- The `match list.last()` at the top of the crawl loop. -/
def nextAction (pages : List FileList) : Action :=
  match pages.getLast? with
  | none => .fetch ""
  | some last =>
    match last.next_page_token with
    | none => .complete
    | some t => .fetch t

/-- Mirrors the `loop` of `list_files`.  `lister n t` is the remote call for
the request issued when `n` pages are accumulated, with continuation token
`t`; `none` models an API error or a conversion error (both abort with a
final checkpoint).  `intr k` is whether `ctrlc_handler.try_recv()` yields a
signal at the poll that follows the append making the list `k` pages long.
`fuel` bounds the number of loop iterations in the model. -/
def crawl (lister : Nat → String → Option FileList) (intr : Nat → Bool) :
    Nat → List FileList → Trace
  | 0, pages => ⟨[], [], pages, .fuelOut⟩
  | fuel + 1, pages =>
    match nextAction pages with
    | .complete => ⟨[], [pages], pages, .complete⟩
    | .fetch t =>
      match lister pages.length t with
      | none => ⟨[t], [pages], pages, .apiError⟩
      | some page =>
        let pages2 := pages ++ [page]
        if intr pages2.length then
          ⟨[t], [pages2], pages2, .interrupted⟩
        else
          let rest := crawl lister intr fuel pages2
          ⟨t :: rest.requests,
           (if pages2.length % 10 == 0 then [pages2] else []) ++ rest.saves,
           rest.pages, rest.outcome⟩

/-- The result of trying to read the checkpoint file: the file opened and its
contents parsed with the given result, or the open itself failed (with or
without `ErrorKind::NotFound`). -/
inductive ReadResult where
  | content (parsed : Except String (List FileList))
  | openError (notFound : Bool)
deriving Repr

/-- Mirrors `restore_data`: a successful parse yields the page list, a parse
error propagates, a failed open yields the empty list when it is
`NotFound` and `allow_not_found` holds, and propagates otherwise. -/
def restore_data (allow_not_found : Bool) (r : ReadResult) : Except String (List FileList) :=
  match r with
  | .content (.ok l) => .ok l
  | .content (.error e) => .error e
  | .openError nf =>
    if nf && allow_not_found then .ok [] else .error "checkpoint open failed"

/-- Mirrors `list_files`: restore the checkpoint with `allow_not_found = true`
(an error propagates before any request is issued), then run the crawl loop. -/
def list_files (r : ReadResult) (lister : Nat → String → Option FileList)
    (intr : Nat → Bool) (fuel : Nat) : Except String Trace :=
  match restore_data true r with
  | .error e => .error e
  | .ok pages => .ok (crawl lister intr fuel pages)

/-- The page requests actually issued by a `list_files` run: none when the
restore already failed. -/
def requestsOf : Except String Trace → List String
  | .error _ => []
  | .ok tr => tr.requests

/-! ## Overview mode (`show_overview`), third report -/

/-- Mirrors the "Files with parents not owned by me" filter of
`show_overview`: records with at least one parent id outside the set of all
record ids, whose `quota_bytes_used` (absent read as `0`) exceeds `1024`. -/
def unowned_parents_report (files : List File) : List File :=
  files.filter (fun f =>
    f.parents.any (fun p => !((files.map (fun g => g.id)).contains p))
      && decide (1024 < f.quota_bytes_used.getD 0))

/-! ## Concrete fixtures used by witnesses and counterexamples -/

/-- A 10 MiB folder-like record with no parent, the `A` of the spec's tree
aggregation example. -/
def fileA : File :=
  ⟨"A", "application/vnd.google-apps.folder", [], "DirA", some (10 * 2 ^ 20), none, none⟩

/-- A 45 MiB record whose sole parent is `A`, the `B` of the spec's tree
aggregation example. -/
def fileB : File :=
  ⟨"B", "application/octet-stream", ["A"], "FileB", some (45 * 2 ^ 20), none, none⟩

/-- A record with no parent that no other record references. -/
def fileLone : File :=
  ⟨"L", "application/octet-stream", [], "Lone", some 7, none, none⟩

/-- A record with two parents. -/
def fileTwoParents : File :=
  ⟨"T", "application/octet-stream", ["p1", "p2"], "Twin", some 7, none, none⟩

/-- A 2048-byte record whose sole parent id is unknown. -/
def orphan2048 : File :=
  ⟨"o1", "application/octet-stream", ["missing"], "Orphan2048", some 2048, none, none⟩

/-- A 500-byte record whose sole parent id is unknown. -/
def orphan500 : File :=
  ⟨"o2", "application/octet-stream", ["missing"], "Orphan500", some 500, none, none⟩

/-- A page with no files and the given continuation token. -/
def mkPage (t : Option String) : FileList := ⟨[], t⟩

/-- A remote lister that always answers with a final page (no token). -/
def listerStop : Nat → String → Option FileList := fun _ _ => some (mkPage none)

/-- A remote lister that always answers with a page carrying a fresh token. -/
def listerMore : Nat → String → Option FileList :=
  fun n _ => some (mkPage (some ("x" ++ toString n)))

/-- A remote lister that serves `k` pages in total: the `k`-th page (fetched
when `k - 1` pages are accumulated) carries no token. -/
def listerUpTo (k : Nat) : Nat → String → Option FileList :=
  fun n _ => some (mkPage (if n + 1 < k then some ("x" ++ toString n) else none))

/-- An interrupt channel that never fires. -/
def intrNever : Nat → Bool := fun _ => false

/-- An interrupt channel that is set from the moment the `m`-th page has been
appended. -/
def intrFrom (m : Nat) : Nat → Bool := fun k => decide (m ≤ k)

/-- A one-page restored state whose last page carries token `"t1"`. -/
def stateT1 : List FileList := [mkPage (some "t1")]

/-- A one-page restored state whose last page carries no token. -/
def stateDone : List FileList := [mkPage none]

/-! ## Helper lemmas -/

/-- A record returned by the id map carries the looked-up id. -/
theorem idToFile_id {files : List File} {id : String} {f : File}
    (h : idToFile files id = some f) : f.id = id := by
  have hm : f ∈ files.filter (fun g => g.id == id) := List.mem_of_mem_getLast? h
  have := (List.mem_filter.mp hm).2
  simpa using this

/-- The child-traversal loop of `dfs`, described through `seqOpt`: it succeeds
exactly when every child's traversal does, with the sum of their sizes and the
concatenation of their output. -/
theorem dfsChildren_eq (children : String → List File) (fuel : Nat) (cs : List File)
    (depth : Nat) :
    dfsChildren children fuel cs depth =
      (seqOpt (cs.map (fun c => dfs children fuel (.file c) (depth + 1)))).map
        (fun rs => ((rs.map Prod.fst).sum, (rs.map Prod.snd).flatten)) := by
  induction cs with
  | nil => simp [dfsChildren, seqOpt]
  | cons c rest ih =>
    have hcons : dfsChildren children fuel (c :: rest) depth =
        dfsStep (dfs children fuel (.file c) (depth + 1))
          (dfsChildren children fuel rest depth) := rfl
    rw [hcons, ih, List.map_cons]
    cases h : dfs children fuel (.file c) (depth + 1) with
    | none => simp [dfsStep, seqOpt]
    | some p =>
      cases hs : seqOpt (rest.map (fun c => dfs children fuel (.file c) (depth + 1))) with
      | none => simp [dfsStep, seqOpt, hs]
      | some rs => simp [dfsStep, seqOpt, hs]

/-- Step equation: the crawl loop with exhausted fuel. -/
theorem crawl_zero (lister : Nat → String → Option FileList) (intr : Nat → Bool)
    (pages : List FileList) :
    crawl lister intr 0 pages = ⟨[], [], pages, .fuelOut⟩ := rfl

/-- Step equation: the last page has no continuation token, so the crawl
saves once more and completes. -/
theorem crawl_succ_complete (lister : Nat → String → Option FileList) (intr : Nat → Bool)
    (fuel : Nat) {pages : List FileList} (ha : nextAction pages = .complete) :
    crawl lister intr (fuel + 1) pages = ⟨[], [pages], pages, .complete⟩ := by
  simp only [crawl, ha]

/-- Step equation: the request fails, so the crawl saves and aborts. -/
theorem crawl_succ_apiError (lister : Nat → String → Option FileList) (intr : Nat → Bool)
    (fuel : Nat) {pages : List FileList} {t : String}
    (ha : nextAction pages = .fetch t) (hl : lister pages.length t = none) :
    crawl lister intr (fuel + 1) pages = ⟨[t], [pages], pages, .apiError⟩ := by
  simp only [crawl, ha, hl]

/-- Step equation: the fetched page is appended and the interrupt poll fires,
so the crawl saves and stops. -/
theorem crawl_succ_interrupted (lister : Nat → String → Option FileList) (intr : Nat → Bool)
    (fuel : Nat) {pages : List FileList} {t : String} {page : FileList}
    (ha : nextAction pages = .fetch t) (hl : lister pages.length t = some page)
    (hi : intr (pages ++ [page]).length = true) :
    crawl lister intr (fuel + 1) pages =
      ⟨[t], [pages ++ [page]], pages ++ [page], .interrupted⟩ := by
  simp only [List.length_append, List.length_cons, List.length_nil] at hi
  simp only [crawl, ha, hl]
  simp [hi]

/-- Step equation: the fetched page is appended, the interrupt poll is silent,
a periodic checkpoint may fire, and the loop continues. -/
theorem crawl_succ_go (lister : Nat → String → Option FileList) (intr : Nat → Bool)
    (fuel : Nat) {pages : List FileList} {t : String} {page : FileList}
    (ha : nextAction pages = .fetch t) (hl : lister pages.length t = some page)
    (hi : intr (pages ++ [page]).length = false) :
    crawl lister intr (fuel + 1) pages =
      ⟨t :: (crawl lister intr fuel (pages ++ [page])).requests,
       (if (pages ++ [page]).length % 10 == 0 then [pages ++ [page]] else []) ++
         (crawl lister intr fuel (pages ++ [page])).saves,
       (crawl lister intr fuel (pages ++ [page])).pages,
       (crawl lister intr fuel (pages ++ [page])).outcome⟩ := by
  simp only [List.length_append, List.length_cons, List.length_nil] at hi
  simp only [crawl, ha, hl]
  simp [hi]

/-- The crawl loop only appends to the restored page list. -/
theorem crawl_pages_extend (lister : Nat → String → Option FileList) (intr : Nat → Bool) :
    ∀ (fuel : Nat) (pages : List FileList),
      ∃ new, (crawl lister intr fuel pages).pages = pages ++ new := by
  intro fuel
  induction fuel with
  | zero => exact fun pages => ⟨[], by simp [crawl_zero]⟩
  | succ f ih =>
    intro pages
    cases ha : nextAction pages with
    | complete => exact ⟨[], by rw [crawl_succ_complete lister intr f ha]; simp⟩
    | fetch t =>
      cases hl : lister pages.length t with
      | none => exact ⟨[], by rw [crawl_succ_apiError lister intr f ha hl]; simp⟩
      | some page =>
        cases hi : intr (pages ++ [page]).length with
        | true =>
          exact ⟨[page], by rw [crawl_succ_interrupted lister intr f ha hl hi]⟩
        | false =>
          obtain ⟨new, hnew⟩ := ih (pages ++ [page])
          refine ⟨[page] ++ new, ?_⟩
          rw [crawl_succ_go lister intr f ha hl hi]
          simpa using hnew

/-- What a `fetch` action says about the current page list: either the list is
empty and the token is the first-page empty token, or the token is the last
page's continuation token. -/
theorem nextAction_fetch {pages : List FileList} {t : String}
    (h : nextAction pages = .fetch t) :
    (pages = [] ∧ t = "") ∨
      ∃ last, pages.getLast? = some last ∧ last.next_page_token = some t := by
  unfold nextAction at h
  cases hl : pages.getLast? with
  | none =>
    simp only [hl] at h
    cases h
    exact Or.inl ⟨List.getLast?_eq_none_iff.mp hl, rfl⟩
  | some last =>
    simp only [hl] at h
    cases ht : last.next_page_token with
    | none =>
      simp only [ht] at h
      exact Action.noConfusion h
    | some t' =>
      simp only [ht] at h
      cases h
      exact Or.inr ⟨last, rfl, ht⟩

/-- Every request issued by the crawl loop either is the very first request of
a fresh crawl (empty list, empty token), or carries the continuation token of
the page that was last in the list when it was issued: the page at position
`pages.length + i - 1` of the final list, where `pages` is the list the loop
started from and `i` the request's index in the run. -/
theorem crawl_requests_src (lister : Nat → String → Option FileList) (intr : Nat → Bool) :
    ∀ (fuel : Nat) (pages : List FileList) (i : Nat) (r : String),
      ((crawl lister intr fuel pages).requests)[i]? = some r →
      (pages.length + i = 0 ∧ r = "") ∨
        ∃ p, ((crawl lister intr fuel pages).pages)[pages.length + i - 1]? = some p ∧
          p.next_page_token = some r := by
  intro fuel
  induction fuel with
  | zero => intro pages i r h; rw [crawl_zero] at h; simp at h
  | succ f ih =>
    intro pages i r h
    cases ha : nextAction pages with
    | complete =>
      rw [crawl_succ_complete lister intr f ha] at h
      simp at h
    | fetch t =>
      have hfirst : ∀ (final : List FileList),
          (pages ≠ [] → pages.getLast? = final[pages.length - 1]?) →
          (pages.length + 0 = 0 ∧ t = "") ∨
            ∃ p, final[pages.length + 0 - 1]? = some p ∧ p.next_page_token = some t := by
        intro final hgl
        rcases nextAction_fetch ha with ⟨hnil, ht⟩ | ⟨last, hlast, htok⟩
        · exact Or.inl ⟨by simp [hnil], ht⟩
        · have hne : pages ≠ [] := by
            intro hnil
            rw [hnil] at hlast
            simp at hlast
          refine Or.inr ⟨last, ?_, htok⟩
          rw [Nat.add_zero, ← hgl hne, hlast]
      have hglue : ∀ (suff : List FileList), pages ≠ [] →
          pages.getLast? = (pages ++ suff)[pages.length - 1]? := by
        intro suff hne
        rw [List.getLast?_eq_getElem? pages, List.getElem?_append]
        cases pages with
        | nil => exact absurd rfl hne
        | cons a l => simp
      cases hl : lister pages.length t with
      | none =>
        rw [crawl_succ_apiError lister intr f ha hl] at h ⊢
        cases i with
        | zero =>
          simp at h
          subst h
          simpa using hfirst pages (fun hne => by simpa using hglue [] hne)
        | succ j => simp at h
      | some page =>
        cases hi : intr (pages ++ [page]).length with
        | true =>
          rw [crawl_succ_interrupted lister intr f ha hl hi] at h ⊢
          cases i with
          | zero =>
            simp at h
            subst h
            simpa using hfirst (pages ++ [page]) (fun hne => hglue [page] hne)

          | succ j => simp at h
        | false =>
          rw [crawl_succ_go lister intr f ha hl hi] at h ⊢
          cases i with
          | zero =>
            simp at h
            subst h
            obtain ⟨new, hnew⟩ := crawl_pages_extend lister intr f (pages ++ [page])
            have := hfirst ((pages ++ [page]) ++ new)
              (fun hne => by rw [List.append_assoc]; exact hglue _ hne)
            rw [← hnew] at this
            simpa using this
          | succ j =>
            simp only [List.getElem?_cons_succ] at h
            rcases ih (pages ++ [page]) j r h with ⟨hz, _⟩ | ⟨p, hp, htok⟩
            · simp at hz
            · refine Or.inr ⟨p, ?_, htok⟩
              have heq : (pages ++ [page]).length + j - 1 = pages.length + (j + 1) - 1 := by
                simp
              rw [← heq]
              exact hp

/-- Unfolding of one successful `dfs` step through `dfsChildren`. -/
theorem dfs_succ (children : String → List File) (fuel : Nat) (node : Node) (depth : Nat) :
    dfs children (fuel + 1) node depth =
      (dfsChildren children fuel (children (nodeId node)) depth).map
        (fun r => (nodeOwnSize node + r.1,
          r.2 ++ if 50 * 2 ^ 20 ≤ nodeOwnSize node + r.1
            then [treeLine depth (nodeOwnSize node + r.1) (nodeName node)] else [])) := by
  show (match dfsChildren children fuel (children (nodeId node)) depth with
    | none => none
    | some (csum, cout) =>
      some (nodeOwnSize node + csum,
        cout ++ if 50 * 2 ^ 20 ≤ nodeOwnSize node + csum
          then [treeLine depth (nodeOwnSize node + csum) (nodeName node)] else [])) = _
  cases dfsChildren children fuel (children (nodeId node)) depth with
  | none => rfl
  | some r => rfl

/-! ## Claim theorems -/

/-- Claim C10: if the restored state is non-empty and its last page has no
continuation token, the crawl mode performs no page fetch, writes the
checkpoint exactly once with content equal to the restored state, and
completes successfully, so re-running on a finished checkpoint is
idempotent. -/
theorem finished_state_idempotent (lister : Nat → String → Option FileList)
    (intr : Nat → Bool) (fuel : Nat) (state : List FileList) (last : FileList)
    (hlast : state.getLast? = some last) (htok : last.next_page_token = none)
    (hfuel : 0 < fuel) :
    crawl lister intr fuel state = ⟨[], [state], state, .complete⟩ := by
  obtain ⟨f, rfl⟩ : ∃ f, fuel = f + 1 := ⟨fuel - 1, by omega⟩
  have ha : nextAction state = .complete := by
    unfold nextAction
    simp only [hlast, htok]
  exact crawl_succ_complete lister intr f ha

/-- Witness for C10 at a concrete finished one-page state. -/
theorem finished_state_idempotent_witness :
    crawl listerStop intrNever 1 stateDone = ⟨[], [stateDone], stateDone, .complete⟩ :=
  finished_state_idempotent listerStop intrNever 1 stateDone (mkPage none) rfl rfl
    (by decide)

/-- Claim C4: resuming from a restored state of `N` pages whose last page
carries token `t`, the crawl only ever appends to those pages, its first
request uses exactly `t`, and every request it issues carries the
continuation token of the page at position `N + i` (1-based) of the final
list — i.e. of a page numbered `≥ N` — so pages `1..N-1`'s tokens and the
empty first-page token are never used to fetch. -/
theorem resume_uses_last_token (lister : Nat → String → Option FileList)
    (intr : Nat → Bool) (fuel : Nat) (state : List FileList) (last : FileList) (t : String)
    (hlast : state.getLast? = some last) (htok : last.next_page_token = some t) :
    (∃ new, (crawl lister intr fuel state).pages = state ++ new) ∧
    (0 < fuel → ((crawl lister intr fuel state).requests).head? = some t) ∧
    (∀ i r, ((crawl lister intr fuel state).requests)[i]? = some r →
      ∃ p, ((crawl lister intr fuel state).pages)[state.length + i - 1]? = some p ∧
        p.next_page_token = some r) := by
  have ha : nextAction state = .fetch t := by
    unfold nextAction
    simp only [hlast, htok]
  refine ⟨crawl_pages_extend lister intr fuel state, ?_, ?_⟩
  · intro hfuel
    obtain ⟨f, rfl⟩ : ∃ f, fuel = f + 1 := ⟨fuel - 1, by omega⟩
    cases hl : lister state.length t with
    | none => rw [crawl_succ_apiError lister intr f ha hl]; rfl
    | some page =>
      cases hi : intr (state ++ [page]).length with
      | true => rw [crawl_succ_interrupted lister intr f ha hl hi]; rfl
      | false => rw [crawl_succ_go lister intr f ha hl hi]; rfl
  · intro i r hr
    rcases crawl_requests_src lister intr fuel state i r hr with ⟨hz, _⟩ | hsrc
    · have : state ≠ [] := by
        intro hnil
        rw [hnil] at hlast
        simp at hlast
      have : state.length ≠ 0 := fun h0 => this (List.length_eq_zero.mp h0)
      omega
    · exact hsrc

/-- Witness for C4 at a concrete one-page restored state. -/
theorem resume_uses_last_token_witness :
    (∃ new, (crawl listerStop intrNever 5 stateT1).pages = stateT1 ++ new) ∧
    (0 < 5 → ((crawl listerStop intrNever 5 stateT1).requests).head? = some "t1") ∧
    (∀ i r, ((crawl listerStop intrNever 5 stateT1).requests)[i]? = some r →
      ∃ p, ((crawl listerStop intrNever 5 stateT1).pages)[stateT1.length + i - 1]? = some p ∧
        p.next_page_token = some r) :=
  resume_uses_last_token listerStop intrNever 5 stateT1 (mkPage (some "t1")) "t1" rfl rfl

/-- Claim C9: for every byte count, `format_size` picks the largest of the
units `B`/`KiB`/`MiB`/`GiB` whose base is at most the value and renders with
two decimal places; zero renders as `"0 B"`; concretely `0 → "0 B"`,
`1536 → "1.50 KiB"`, `50·2^20 → "50.00 MiB"`. -/
theorem format_size_spec :
    (∀ size : Nat, 0 < size →
      ∃ i, i ≤ 3 ∧ 2 ^ (10 * i) ≤ size ∧
        (∀ j, j ≤ 3 → 2 ^ (10 * j) ≤ size → j ≤ i) ∧
        format_size size = renderFixed2 size (2 ^ (10 * i)) ++ " " ++ unitName i ++ "B") ∧
    format_size 0 = "0 B" ∧
    format_size 1536 = "1.50 KiB" ∧
    format_size (50 * 2 ^ 20) = "50.00 MiB" := by
  refine ⟨?_, by decide, by decide, by decide⟩
  intro size hpos
  by_cases h3 : 2 ^ (10 * 3) ≤ size
  · refine ⟨3, by omega, h3, fun j hj _ => hj, ?_⟩
    unfold format_size
    rw [List.find?_cons_of_pos _ (by simpa using h3)]
  · by_cases h2 : 2 ^ (10 * 2) ≤ size
    · refine ⟨2, by omega, h2, ?_, ?_⟩
      · intro j hj hle
        by_contra hgt
        have hj3 : j = 3 := by omega
        exact h3 (hj3 ▸ hle)
      · unfold format_size
        rw [List.find?_cons_of_neg _ (by simpa using h3),
          List.find?_cons_of_pos _ (by simpa using h2)]
    · by_cases h1 : 2 ^ (10 * 1) ≤ size
      · refine ⟨1, by omega, h1, ?_, ?_⟩
        · intro j hj hle
          by_contra hgt
          have : j = 2 ∨ j = 3 := by omega
          rcases this with hj2 | hj3
          · exact h2 (hj2 ▸ hle)
          · exact h3 (hj3 ▸ hle)
        · unfold format_size
          rw [List.find?_cons_of_neg _ (by simpa using h3),
            List.find?_cons_of_neg _ (by simpa using h2),
            List.find?_cons_of_pos _ (by simpa using h1)]
      · refine ⟨0, by omega, by simpa using hpos, ?_, ?_⟩
        · intro j hj hle
          by_contra hgt
          have : j = 1 ∨ j = 2 ∨ j = 3 := by omega
          rcases this with hj1 | hj2 | hj3
          · exact h1 (hj1 ▸ hle)
          · exact h2 (hj2 ▸ hle)
          · exact h3 (hj3 ▸ hle)
        · unfold format_size
          rw [List.find?_cons_of_neg _ (by simpa using h3),
            List.find?_cons_of_neg _ (by simpa using h2),
            List.find?_cons_of_neg _ (by simpa using h1),
            List.find?_cons_of_pos _ (by simpa using hpos)]

/-- Witness for C9 at `size = 1536`. -/
theorem format_size_spec_witness :
    ∃ i, i ≤ 3 ∧ 2 ^ (10 * i) ≤ 1536 ∧
      (∀ j, j ≤ 3 → 2 ^ (10 * j) ≤ 1536 → j ≤ i) ∧
      format_size 1536 = renderFixed2 1536 (2 ^ (10 * i)) ++ " " ++ unitName i ++ "B" :=
  format_size_spec.1 1536 (by decide)

/-- Claim C8: the "parents not owned by me" report holds exactly the records
with some parent id outside the set of all record ids and `quota_bytes_used`
(absent read as 0) strictly above 1024 bytes; a sole-unknown-parent record
with 2048 bytes is reported, with 500 bytes it is not. -/
theorem unowned_parents_report_spec :
    (∀ (files : List File) (f : File),
      f ∈ unowned_parents_report files ↔
        f ∈ files ∧ (∃ p ∈ f.parents, ∀ g ∈ files, g.id ≠ p) ∧
          1024 < f.quota_bytes_used.getD 0) ∧
    unowned_parents_report [orphan2048] = [orphan2048] ∧
    unowned_parents_report [orphan500] = [] := by
  refine ⟨?_, by decide, by decide⟩
  intro files f
  unfold unowned_parents_report
  rw [List.mem_filter]
  constructor
  · rintro ⟨hmem, hcond⟩
    rw [Bool.and_eq_true] at hcond
    obtain ⟨hany, hsz⟩ := hcond
    rw [List.any_eq_true] at hany
    obtain ⟨p, hp, hnp⟩ := hany
    refine ⟨hmem, ⟨p, hp, ?_⟩, by simpa using hsz⟩
    intro g hg hid
    rw [Bool.not_eq_true'] at hnp
    have hpm : p ∉ files.map (fun g => g.id) := by simpa using hnp
    exact hpm (List.mem_map.mpr ⟨g, hg, hid⟩)
  · rintro ⟨hmem, ⟨p, hp, hnp⟩, hsz⟩
    refine ⟨hmem, ?_⟩
    rw [Bool.and_eq_true]
    refine ⟨?_, by simpa using hsz⟩
    rw [List.any_eq_true]
    refine ⟨p, hp, ?_⟩
    rw [Bool.not_eq_true']
    have hpm : p ∉ files.map (fun g => g.id) := by
      intro hm
      obtain ⟨g, hg, hid⟩ := List.mem_map.mp hm
      exact hnp g hg hid
    simpa using hpm

/-- Witness for C8: the 2048-byte orphan is in its own report. -/
theorem unowned_parents_report_spec_witness :
    orphan2048 ∈ unowned_parents_report [orphan2048] :=
  (unowned_parents_report_spec.1 [orphan2048] orphan2048).mpr
    ⟨by decide, ⟨"missing", by decide, by decide⟩, by decide⟩

/-- Claim C3: a record with more than one parent makes tree mode fail with a
structural-violation error while the parent-to-children map is being built,
before any traversal, so no tree line is printed for any fuel. -/
theorem multi_parent_fatal (files : List File) (f : File)
    (hf : f ∈ files) (hp : 2 ≤ f.parents.length) :
    (∃ e, multiParentCheck files = .error e) ∧
    ∀ fuel, ∃ e, show_tree fuel files = .error e := by
  have herr : ∃ e, multiParentCheck files = .error e := by
    induction files with
    | nil => cases hf
    | cons g rest ih =>
      cases hgp : g.parents with
      | nil =>
        have hfr : f ∈ rest := by
          rcases List.mem_cons.mp hf with hEq | hmem
          · subst hEq
            rw [hgp] at hp
            simp at hp
          · exact hmem
        obtain ⟨e, he⟩ := ih hfr
        exact ⟨e, by rw [multiParentCheck, hgp]; exact he⟩
      | cons p ps =>
        cases hps : ps with
        | nil =>
          have hfr : f ∈ rest := by
            rcases List.mem_cons.mp hf with hEq | hmem
            · subst hEq
              rw [hgp, hps] at hp
              simp at hp
            · exact hmem
          obtain ⟨e, he⟩ := ih hfr
          refine ⟨e, ?_⟩
          rw [multiParentCheck, hgp, hps]
          exact he
        | cons q qs =>
          refine ⟨"Multiple parents: " ++ g.id, ?_⟩
          rw [multiParentCheck, hgp, hps]
  obtain ⟨e, he⟩ := herr
  refine ⟨⟨e, he⟩, fun fuel => ⟨e, ?_⟩⟩
  rw [show_tree, he]

/-- Witness for C3 at a concrete two-parent record. -/
theorem multi_parent_fatal_witness :
    (∃ e, multiParentCheck [fileTwoParents] = .error e) ∧
    ∀ fuel, ∃ e, show_tree fuel [fileTwoParents] = .error e :=
  multi_parent_fatal [fileTwoParents] fileTwoParents (List.mem_singleton.mpr rfl)
    (by decide)

/-- Claim C7: at crawl-mode start, a missing checkpoint file restores to the
empty state and the crawl starts from the beginning (first request carries
the empty token); a parse failure or any other open failure is fatal, and no
page request is issued in that run. -/
theorem restore_failure_handling :
    restore_data true (.openError true) = .ok [] ∧
    (∀ (lister : Nat → String → Option FileList) (intr : Nat → Bool) (fuel : Nat),
      0 < fuel →
      ∃ tr, list_files (.openError true) lister intr fuel = .ok tr ∧
        tr.requests.head? = some "") ∧
    (∀ e, restore_data true (.content (.error e)) = .error e ∧
      ∀ (lister : Nat → String → Option FileList) (intr : Nat → Bool) (fuel : Nat),
        requestsOf (list_files (.content (.error e)) lister intr fuel) = []) ∧
    (∃ e, restore_data true (.openError false) = .error e) ∧
    (∀ (lister : Nat → String → Option FileList) (intr : Nat → Bool) (fuel : Nat),
      requestsOf (list_files (.openError false) lister intr fuel) = []) := by
  refine ⟨rfl, ?_, fun e => ⟨rfl, fun lister intr fuel => rfl⟩, ⟨_, rfl⟩,
    fun lister intr fuel => rfl⟩
  intro lister intr fuel hfuel
  obtain ⟨f, rfl⟩ : ∃ f, fuel = f + 1 := ⟨fuel - 1, by omega⟩
  refine ⟨crawl lister intr (f + 1) [], rfl, ?_⟩
  have ha : nextAction [] = .fetch "" := rfl
  cases hl : lister ([] : List FileList).length "" with
  | none => rw [crawl_succ_apiError lister intr f ha hl]; rfl
  | some page =>
    cases hi : intr (([] : List FileList) ++ [page]).length with
    | true => rw [crawl_succ_interrupted lister intr f ha hl hi]; rfl
    | false => rw [crawl_succ_go lister intr f ha hl hi]; rfl

/-- Witness for C7's fresh-start conjunct at concrete inputs. -/
theorem restore_failure_handling_witness :
    ∃ tr, list_files (.openError true) listerStop intrNever 3 = .ok tr ∧
      tr.requests.head? = some "" :=
  restore_failure_handling.2.1 listerStop intrNever 3 (by decide)

/-- Claim C2: every successfully traversed node's aggregate size is its own
size (0 when absent or a synthetic root) plus the recursively computed sum of
its children's aggregates, and its line is printed exactly when the aggregate
is at least `50 * 2^20` bytes; concretely, records A (10 MiB, no parent) and
B (45 MiB, parent A) print only A's line, with aggregate 55 MiB. -/
theorem tree_aggregate_spec :
    (∀ (children : String → List File) (fuel : Nat) (node : Node) (depth sz : Nat)
        (out : List String),
      dfs children (fuel + 1) node depth = some (sz, out) →
      ∃ rs : List (Nat × List String),
        seqOpt ((children (nodeId node)).map
          (fun c => dfs children fuel (.file c) (depth + 1))) = some rs ∧
        sz = nodeOwnSize node + (rs.map Prod.fst).sum ∧
        out = (rs.map Prod.snd).flatten ++
          (if 50 * 2 ^ 20 ≤ sz then [treeLine depth sz (nodeName node)] else [])) ∧
    show_tree 2 [fileA, fileB] = .ok (some ["o 55.00 MiB  DirA"]) := by
  refine ⟨?_, rfl⟩
  intro children fuel node depth sz out h
  rw [dfs_succ, dfsChildren_eq] at h
  cases hs : seqOpt ((children (nodeId node)).map
      (fun c => dfs children fuel (.file c) (depth + 1))) with
  | none => rw [hs] at h; simp at h
  | some rs =>
    rw [hs] at h
    simp only [Option.map_some', Option.some.injEq, Prod.mk.injEq] at h
    obtain ⟨h1, h2⟩ := h
    subst h1
    exact ⟨rs, rfl, rfl, h2.symm⟩

/-- Witness for C2's general conjunct at the concrete A/B tree. -/
theorem tree_aggregate_spec_witness :
    ∃ rs : List (Nat × List String),
      seqOpt ((childrenOf [fileA, fileB] (nodeId (.file fileA))).map
        (fun c => dfs (childrenOf [fileA, fileB]) 1 (.file c) 1)) = some rs ∧
      55 * 2 ^ 20 = nodeOwnSize (.file fileA) + (rs.map Prod.fst).sum ∧
      ["o 55.00 MiB  DirA"] = (rs.map Prod.snd).flatten ++
        (if 50 * 2 ^ 20 ≤ 55 * 2 ^ 20
          then [treeLine 0 (55 * 2 ^ 20) (nodeName (.file fileA))] else []) :=
  tree_aggregate_spec.1 (childrenOf [fileA, fileB]) 1 (.file fileA) 0 (55 * 2 ^ 20)
    ["o 55.00 MiB  DirA"] rfl

/-- Claim C5: a crawl that completes (no interruption, no fetch failure)
writes the checkpoint at least once; the final write carries the full final
page list, whose last page has no continuation token; and every intermediate
page count that is a multiple of 10 has its full page list written at that
moment. -/
theorem checkpoint_cadence (lister : Nat → String → Option FileList) (intr : Nat → Bool)
    (fuel : Nat) (state : List FileList)
    (hc : (crawl lister intr fuel state).outcome = .complete) :
    (crawl lister intr fuel state).saves ≠ [] ∧
    (crawl lister intr fuel state).saves.getLast? = some (crawl lister intr fuel state).pages ∧
    nextAction (crawl lister intr fuel state).pages = .complete ∧
    (∃ new, (crawl lister intr fuel state).pages = state ++ new) ∧
    (∀ n, state.length < n → n ≤ (crawl lister intr fuel state).pages.length → n % 10 = 0 →
      (crawl lister intr fuel state).pages.take n ∈ (crawl lister intr fuel state).saves) := by
  induction fuel generalizing state with
  | zero =>
    rw [crawl_zero] at hc
    exact absurd hc (by simp)
  | succ f ih =>
    cases ha : nextAction state with
    | complete =>
      rw [crawl_succ_complete lister intr f ha] at hc ⊢
      refine ⟨by simp, by simp, ha, ⟨[], by simp⟩, ?_⟩
      intro n h1 h2 _
      dsimp only at h2
      omega
    | fetch t =>
      cases hl : lister state.length t with
      | none =>
        rw [crawl_succ_apiError lister intr f ha hl] at hc
        exact absurd hc (by simp)
      | some page =>
        cases hi : intr (state ++ [page]).length with
        | true =>
          rw [crawl_succ_interrupted lister intr f ha hl hi] at hc
          exact absurd hc (by simp)
        | false =>
          rw [crawl_succ_go lister intr f ha hl hi] at hc ⊢
          simp only at hc
          obtain ⟨hs1, hs2, hs3, ⟨new, hnew⟩, hs5⟩ := ih (state ++ [page]) hc
          refine ⟨by simp [hs1], ?_, hs3, ⟨page :: new, by simpa using hnew⟩, ?_⟩
          · simp only [List.getLast?_append]
            rw [hs2]
            rfl
          · intro n h1 h2 h3
            dsimp only at h2 ⊢
            rcases Nat.lt_or_ge n (state ++ [page]).length with hcase | hcase
            · have : n ≤ state.length := by
                simp only [List.length_append, List.length_cons, List.length_nil] at hcase
                omega
              omega
            rcases Nat.eq_or_lt_of_le hcase with hcase2 | hcase2
            · have hsave : ((state ++ [page]).length % 10 == 0) = true := by
                rw [hcase2]
                simpa using h3
              have htake : (crawl lister intr f (state ++ [page])).pages.take n
                  = state ++ [page] := by
                rw [hnew, ← hcase2, List.take_left]
              simp only [hsave, if_true, htake]
              exact List.mem_append.mpr (Or.inl (by simp))
            · have := hs5 n (by omega) h2 h3
              exact List.mem_append.mpr (Or.inr this)

/-- Witness for C5: a 12-page uninterrupted crawl from the empty state. -/
theorem checkpoint_cadence_witness :
    (crawl (listerUpTo 12) intrNever 20 []).saves ≠ [] ∧
    (crawl (listerUpTo 12) intrNever 20 []).saves.getLast?
      = some (crawl (listerUpTo 12) intrNever 20 []).pages ∧
    nextAction (crawl (listerUpTo 12) intrNever 20 []).pages = .complete ∧
    (∃ new, (crawl (listerUpTo 12) intrNever 20 []).pages = [] ++ new) ∧
    (∀ n, ([] : List FileList).length < n →
      n ≤ (crawl (listerUpTo 12) intrNever 20 []).pages.length → n % 10 = 0 →
      (crawl (listerUpTo 12) intrNever 20 []).pages.take n
        ∈ (crawl (listerUpTo 12) intrNever 20 []).saves) :=
  checkpoint_cadence (listerUpTo 12) intrNever 20 [] (by decide)

/-- Auxiliary induction for the interrupt claim: while fewer than `m` pages
are accumulated, the signal stays unobserved, every page arrives with a
token, no periodic checkpoint fires (`m < 10`), and the run ends in the
interrupted state with exactly `m` pages, one save, and one request per
missing page. -/
theorem crawl_interrupt_aux (lister : Nat → String → Option FileList) (intr : Nat → Bool)
    (m : Nat) (hm10 : m < 10)
    (hlister : ∀ n s, n < m → ∃ p t, lister n s = some p ∧ p.next_page_token = some t)
    (hintr : ∀ k, intr k = decide (m ≤ k)) :
    ∀ (fuel : Nat) (pages : List FileList), pages.length < m → m ≤ pages.length + fuel →
    (∃ t, nextAction pages = .fetch t) →
    (crawl lister intr fuel pages).outcome = .interrupted ∧
    (crawl lister intr fuel pages).pages.length = m ∧
    (crawl lister intr fuel pages).saves = [(crawl lister intr fuel pages).pages] ∧
    (crawl lister intr fuel pages).requests.length = m - pages.length := by
  intro fuel
  induction fuel with
  | zero => intro pages hlt hle _; omega
  | succ f ih =>
    intro pages hlt hle hfetch
    obtain ⟨t, ha⟩ := hfetch
    obtain ⟨page, t2, hpage, htok⟩ := hlister pages.length t hlt
    rcases Nat.lt_or_ge (pages.length + 1) m with hnext | hnext
    · have hi : intr (pages ++ [page]).length = false := by
        rw [hintr]
        simp only [List.length_append, List.length_cons, List.length_nil]
        simpa using by omega
      rw [crawl_succ_go lister intr f ha hpage hi]
      have hfetch2 : ∃ t, nextAction (pages ++ [page]) = .fetch t := by
        refine ⟨t2, ?_⟩
        unfold nextAction
        simp only [List.getLast?_concat, htok]
      obtain ⟨ho, hlen, hsaves, hreq⟩ :=
        ih (pages ++ [page]) (by simp; omega) (by simp; omega) hfetch2
      have hnosave : ((pages ++ [page]).length % 10 == 0) = false := by
        simp only [List.length_append, List.length_cons, List.length_nil]
        have : (pages.length + 1) % 10 = pages.length + 1 := Nat.mod_eq_of_lt (by omega)
        simp [this]
      refine ⟨ho, hlen, ?_, ?_⟩
      · dsimp only
        rw [hnosave]
        simpa using hsaves
      · dsimp only
        rw [List.length_cons, hreq]
        simp
        omega
    · have hi : intr (pages ++ [page]).length = true := by
        rw [hintr]
        simp only [List.length_append, List.length_cons, List.length_nil]
        simpa using by omega
      rw [crawl_succ_interrupted lister intr f ha hpage hi]
      refine ⟨rfl, ?_, rfl, ?_⟩
      · simp
        omega
      · simp
        omega

/-- Claim C6: starting from the empty state with the interrupt signal set
from the moment page `m` is appended (`1 ≤ m < 10`), and a lister that keeps
producing token-carrying pages up to that point, the run stops interrupted
with exactly `m` pages, a single checkpoint write holding those `m` pages,
and exactly `m` page requests (none after the interrupt). -/
theorem interrupt_durability (lister : Nat → String → Option FileList) (intr : Nat → Bool)
    (m fuel : Nat) (hm1 : 1 ≤ m) (hm10 : m < 10) (hfuel : m ≤ fuel)
    (hlister : ∀ n s, n < m → ∃ p t, lister n s = some p ∧ p.next_page_token = some t)
    (hintr : ∀ k, intr k = decide (m ≤ k)) :
    (crawl lister intr fuel []).outcome = .interrupted ∧
    (crawl lister intr fuel []).pages.length = m ∧
    (crawl lister intr fuel []).saves = [(crawl lister intr fuel []).pages] ∧
    (crawl lister intr fuel []).requests.length = m := by
  have := crawl_interrupt_aux lister intr m hm10 hlister hintr fuel []
    (by simpa using hm1) (by simpa using hfuel) ⟨"", rfl⟩
  simpa using this

/-- Witness for C6 at `m = 3` with a concrete lister and interrupt channel. -/
theorem interrupt_durability_witness :
    (crawl listerMore (intrFrom 3) 10 []).outcome = .interrupted ∧
    (crawl listerMore (intrFrom 3) 10 []).pages.length = 3 ∧
    (crawl listerMore (intrFrom 3) 10 []).saves
      = [(crawl listerMore (intrFrom 3) 10 []).pages] ∧
    (crawl listerMore (intrFrom 3) 10 []).requests.length = 3 :=
  interrupt_durability listerMore (intrFrom 3) 3 10 (by decide) (by decide) (by decide)
    (fun n s _ => ⟨mkPage (some ("x" ++ toString n)), "x" ++ toString n, rfl, rfl⟩)
    (fun k => rfl)

/-- Counterexample to claim C1 as stated: for the single record `fileLone`
(empty `parents`, referenced by nobody), the spec's claimed root set contains
the record once, but the source's root selection — which iterates over
parent-id occurrences only — starts no traversal at all. -/
theorem rootNodes_claim_counterexample :
    ¬ (rootNodes [fileLone]).Perm (claimedRoots [fileLone]) := by decide

/-- Claim C1 as amended: tree-mode roots are produced per occurrence of a
parent id in the concatenation of all records' `parents`.  A parent id
absent from the id map starts one synthesized Root traversal per referencing
occurrence (not deduplicated); a parent id whose record has empty `parents`
starts one traversal of that record per referencing occurrence; nothing else
is traversed — in particular a record with empty `parents` that no record
references is not traversed at all. -/
theorem rootNodes_amended (files : List File) :
    (∀ id, idToFile files id = none →
      (rootNodes files).count (Node.root id (mkRootName id)) =
        (files.flatMap (fun f => f.parents)).count id) ∧
    (∀ f : File, idToFile files f.id = some f → f.parents = [] →
      (rootNodes files).count (Node.file f) =
        (files.flatMap (fun g => g.parents)).count f.id) ∧
    (∀ n ∈ rootNodes files,
      (∃ id, idToFile files id = none ∧ n = Node.root id (mkRootName id)) ∨
      (∃ f, idToFile files f.id = some f ∧ f.parents = [] ∧ n = Node.file f)) := by
  have hroot : rootNodes files = (files.flatMap (fun f => f.parents)).filterMap (fun id =>
      match idToFile files id with
      | none => some (.root id (mkRootName id))
      | some f => if f.parents.isEmpty then some (.file f) else none) := rfl
  refine ⟨?_, ?_, ?_⟩
  · intro id hid
    rw [hroot, List.count_filterMap, List.count_eq_countP]
    apply List.countP_congr
    intro x hx
    simp only [beq_iff_eq]
    constructor
    · intro hbeq
      cases hix : idToFile files x with
      | none =>
        simp only [hix, Option.some.injEq] at hbeq
        exact (Node.root.inj hbeq).1
      | some fx =>
        simp only [hix] at hbeq
        split at hbeq
        · simp at hbeq
        · simp at hbeq
    · intro hbeq
      subst hbeq
      simp only [hid]
  · intro f hf hpar
    rw [hroot, List.count_filterMap, List.count_eq_countP]
    apply List.countP_congr
    intro x hx
    simp only [beq_iff_eq]
    constructor
    · intro hbeq
      cases hix : idToFile files x with
      | none =>
        simp only [hix, Option.some.injEq] at hbeq
        exact absurd hbeq (by simp)
      | some fx =>
        simp only [hix] at hbeq
        split at hbeq
        · have hfx : fx = f := by
            simpa using Option.some.inj hbeq
          have := idToFile_id hix
          rw [← this, hfx]
        · simp at hbeq
    · intro hbeq
      subst hbeq
      simp only [hf, hpar]
      simp
  · intro n hn
    rw [hroot] at hn
    obtain ⟨a, ha, hg⟩ := List.mem_filterMap.mp hn
    cases hia : idToFile files a with
    | none =>
      simp only [hia, Option.some.injEq] at hg
      exact Or.inl ⟨a, hia, hg.symm⟩
    | some fa =>
      simp only [hia] at hg
      split at hg
      case isTrue he =>
        refine Or.inr ⟨fa, ?_, List.isEmpty_iff.mp he, (Option.some.inj hg).symm⟩
        rw [idToFile_id hia]
        exact hia
      case isFalse => simp at hg

/-- Witness for C1's amended theorem: `fileB`'s missing parent id `"A"` is a
root once per referencing occurrence. -/
theorem rootNodes_amended_witness :
    (rootNodes [fileB]).count (Node.root "A" (mkRootName "A")) =
      (([fileB] : List File).flatMap (fun f => f.parents)).count "A" :=
  (rootNodes_amended [fileB]).1 "A" rfl

end DriveCrawl
